import Mathlib

/-!
Verification of the metadata reconciliation layer in
`store/postgres/src/detail.rs`: block pointer construction, error and
status conversion, bulk status fetching, deployment entity
reconstruction, and build provenance registration.

Machine integers are modelled as `Nat`/`Int` with explicit reductions
modulo `2 ^ 64` where Rust performs an `as u64` cast.  Fallible Rust
code returning `Result` is modelled by the `Outcome` type below, which
additionally records a panic (process abort) as a distinct constructor.
-/

/-- Errors surfaced by this layer.  The source's `StoreError` has more
variants, but the code under verification only ever constructs
`ConstraintViolation`; one extra constructor keeps the type honest. -/
inductive StoreError where
  | constraintViolation (msg : String)
  | unknown (msg : String)
deriving DecidableEq

/-- The result of running a piece of fallible Rust code: a value, an
`Err` carried to the caller, or a panic (process abort). -/
inductive Outcome (α : Type) where
  | ok (a : α)
  | err (e : StoreError)
  | panic
deriving DecidableEq

namespace Outcome

def map (f : α → β) : Outcome α → Outcome β
  | .ok a => .ok (f a)
  | .err e => .err e
  | .panic => .panic

/-- Whether an outcome is a success. -/
def isOk : Outcome α → Bool
  | .ok _ => true
  | _ => false

end Outcome

/-- An arbitrary-precision decimal `mantissa / 10 ^ scale`, mirroring the
`BigDecimal` values loaded from numeric columns. -/
structure BigDecimal where
  mantissa : Int
  scale : Nat
deriving DecidableEq

/-- The rational value `mantissa / 10 ^ scale` is the number a
`BigDecimal` denotes; `reprNat d n` says that value is the natural
number `n`. -/
def BigDecimal.reprNat (d : BigDecimal) (n : Nat) : Prop :=
  (n : Int) * (10 : Int) ^ d.scale = d.mantissa

/-- Modelled from the spec: conversion of an arbitrary-precision decimal
to unsigned 64-bit ("converts entity count from decimal to unsigned
64-bit; fails with ConstraintViolation if it does not fit", "decimal
values representable as unsigned 64-bit round-trip exactly; values
exceeding that range fail").  The `ToPrimitive::to_u64` implementation
lives in the external `bigdecimal` crate, not in this repository, so it
is modelled as: succeed exactly when the denoted value is a nonnegative
integer below `2 ^ 64`, returning that value. -/
def BigDecimal.toU64 (d : BigDecimal) : Option Nat :=
  if 0 ≤ d.mantissa ∧ d.mantissa % (10 : Int) ^ d.scale = 0
      ∧ d.mantissa / (10 : Int) ^ d.scale < 2 ^ 64 then
    some (d.mantissa / (10 : Int) ^ d.scale).toNat
  else
    none

/-- Debug-style rendering of a decimal, used only inside diagnostic
messages. -/
def BigDecimal.render (d : BigDecimal) : String :=
  toString d.mantissa ++ "E-" ++ toString d.scale

/-- A 32-byte hash, kept as its byte list. -/
def H256 := List Nat
deriving DecidableEq

/-- Modelled from the spec: `H256::from_slice` (external `web3`/
`fixed-hash` crate, not in this repository) copies exactly 32 bytes and
aborts the process when handed a slice of any other length.  `none`
models the panic. -/
def H256.fromSlice (bytes : List Nat) : Option H256 :=
  if bytes.length = 32 then some bytes else none

/-- A populated block reference as produced by `status::EthereumBlock::new`. -/
structure EthereumBlock where
  hash : H256
  number : Nat
deriving DecidableEq

/-- A domain block pointer (hash, number). -/
structure BlockPtr where
  hash : H256
  number : Nat
deriving DecidableEq

/-- Embeds `status::EthereumBlock::to_ptr`. -/
def EthereumBlock.to_ptr (b : EthereumBlock) : BlockPtr :=
  ⟨b.hash, b.number⟩

/-- Debug rendering of an optional byte vector, for diagnostics. -/
def debugOptBytes : Option (List Nat) → String
  | none => "None"
  | some bs => "Some([" ++ String.intercalate ", " (bs.map toString) ++ "])"

/-- Debug rendering of an optional decimal, for diagnostics. -/
def debugOptDecimal : Option BigDecimal → String
  | none => "None"
  | some d => "Some(" ++ d.render ++ ")"

/-- The function `block`: builds a validated optional block reference from two
independently nullable columns (detail.rs, lines 85-115). -/
def block (id name : String) (hash : Option (List Nat))
    (number : Option BigDecimal) : Outcome (Option EthereumBlock) :=
  match hash, number with
  | some h, some n =>
    match H256.fromSlice h with
    | none => .panic
    | some h256 =>
      match n.toU64 with
      | none =>
        .err (.constraintViolation ("the block number " ++ n.render ++ " for "
          ++ name ++ " in " ++ id ++ " is not representable as a u64"))
      | some k => .ok (some ⟨h256, k⟩)
  | none, none => .ok none
  | _, _ =>
    .err (.constraintViolation ("the hash and number of a block pointer must "
      ++ "either both be null or both have a value, but for `" ++ id
      ++ "` the hash of " ++ name ++ " is `" ++ debugOptBytes hash
      ++ "` and the number is `" ++ debugOptDecimal number ++ "`"))

/-- Health of a deployment; the storage enum and the domain enum have the
same three states and the source converts with a trivial `Into`. -/
inductive SubgraphHealth where
  | healthy
  | unhealthy
  | failed
deriving DecidableEq

/-- A bound of the version-range column (`std::ops::Bound<i32>`). -/
inductive Bound where
  | included (n : Int)
  | excluded (n : Int)
  | unbounded
deriving DecidableEq

/-- Modelled from the spec: `crate::block_range::first_block_in_range`
is not part of the sources under verification; per the spec the
version-range yields a definite starting block number exactly when its
lower bound is a concrete value (not "unbounded"). -/
def first_block_in_range : Bound × Bound → Option Int
  | (.included n, _) => some n
  | (.excluded n, _) => some (n + 1)
  | (.unbounded, _) => none

/-- Rust's `as u64` cast of a (sign-extended) machine integer:
two's-complement reduction modulo `2 ^ 64`. -/
def intAsU64 (n : Int) : Nat :=
  (n % (2 : Int) ^ 64).toNat

/-- A validated deployment identifier. -/
structure DeploymentHash where
  hash : String
deriving DecidableEq

/-- Modelled from the spec: validity of a deployment identifier
("non-empty, conforms to identifier rules"); `DeploymentHash::new` lives
in the external `graph` crate.  Identifier characters are taken to be
alphanumerics and underscore. -/
def DeploymentHash.isValid (s : String) : Bool :=
  s ≠ "" && s.toList.all fun c => c.isAlphanum || c = '_'

/-- Modelled from the spec: `DeploymentHash::new` returns the validated
identifier, or the offending string on failure. -/
def DeploymentHash.new (s : String) : Except String DeploymentHash :=
  if DeploymentHash.isValid s then .ok ⟨s⟩ else .error s

/-- A raw stored error row (detail.rs, lines 67-81). -/
structure ErrorDetail where
  vid : Int
  id : String
  subgraph_id : String
  message : String
  block_hash : Option (List Nat)
  handler : Option String
  deterministic : Bool
  block_range : Bound × Bound
deriving DecidableEq

/-- The domain error object. -/
structure SubgraphError where
  subgraph_id : DeploymentHash
  message : String
  block_ptr : Option BlockPtr
  handler : Option String
  deterministic : Bool
deriving DecidableEq

/-- The tail of the `ErrorDetail → SubgraphError` conversion, after
`block_hash.map(H256::from_slice)` has run (detail.rs, lines 133-151):
synthesize the fallback pointer and validate the deployment key. -/
def SubgraphError.finish (v : ErrorDetail) (block_number : Option Int)
    (block_hash : Option H256) : Outcome SubgraphError :=
  let block_ptr : Option BlockPtr :=
    match block_number, block_hash with
    | some number, some hash => some ⟨hash, intAsU64 number⟩
    | _, _ => none
  match DeploymentHash.new v.subgraph_id with
  | .error i =>
    .err (.constraintViolation ("invalid subgraph id `" ++ i
      ++ "` in fatal error"))
  | .ok subgraph_id =>
    .ok { subgraph_id, message := v.message, block_ptr,
          handler := v.handler, deterministic := v.deterministic }

/-- Embeds `block_hash.map(|hash| H256::from_slice(hash.as_slice()))`
(detail.rs, line 132): decode a present hash, propagating the panic of
the length assertion out of the `map`. -/
def mapHash : Option (List Nat) → Outcome (Option H256)
  | none => .ok none
  | some h =>
    match H256.fromSlice h with
    | none => .panic
    | some h256 => .ok (some h256)

/-- Embeds `TryFrom<ErrorDetail> for SubgraphError` (detail.rs, lines 117-152):
derive a fallback block pointer from the version-range's lower bound and
the stored hash, then validate the deployment key. -/
def SubgraphError.try_from (v : ErrorDetail) : Outcome SubgraphError :=
  let block_number := first_block_in_range v.block_range
  match mapHash v.block_hash with
  | .err e => .err e
  | .panic => .panic
  | .ok block_hash => SubgraphError.finish v block_number block_hash

/-- A resolved site: the shard/network location of a deployment
(external input, `crate::primary::Site`). -/
structure Site where
  deployment : String
  network : String
deriving DecidableEq

/-- A raw deployment row (detail.rs, lines 39-65). -/
structure DeploymentDetail where
  id : Int
  deployment : String
  failed : Bool
  health : SubgraphHealth
  synced : Bool
  fatal_error : Option String
  non_fatal_errors : List String
  earliest_ethereum_block_hash : Option (List Nat)
  earliest_ethereum_block_number : Option BigDecimal
  latest_ethereum_block_hash : Option (List Nat)
  latest_ethereum_block_number : Option BigDecimal
  last_healthy_ethereum_block_hash : Option (List Nat)
  last_healthy_ethereum_block_number : Option BigDecimal
  entity_count : BigDecimal
  graft_base : Option String
  graft_block_hash : Option (List Nat)
  graft_block_number : Option BigDecimal
  reorg_count : Int
  current_reorg_depth : Int
  max_reorg_depth : Int
deriving DecidableEq

/-- Per-chain status info (`status::ChainInfo`). -/
structure ChainInfo where
  network : String
  chain_head_block : Option EthereumBlock
  earliest_block : Option EthereumBlock
  latest_block : Option EthereumBlock
deriving DecidableEq

/-- Per-deployment status (`status::Info`). -/
structure Info where
  subgraph : String
  synced : Bool
  health : SubgraphHealth
  fatal_error : Option SubgraphError
  non_fatal_errors : List SubgraphError
  chains : List ChainInfo
  entity_count : Nat
  node : Option String
deriving DecidableEq

/-- Embeds `error.map(SubgraphError::try_from).transpose()`. -/
def transposeError : Option ErrorDetail → Outcome (Option SubgraphError)
  | none => .ok none
  | some e => (SubgraphError.try_from e).map some

/-- Embeds `TryFrom<DetailAndError> for status::Info` (detail.rs, lines
154-224): resolve the owning site, build the block pointers, convert the
entity count, convert the optional fatal error, and assemble. -/
def Info.try_from (detail : DeploymentDetail) (error : Option ErrorDetail)
    (sites : List Site) : Outcome Info :=
  match sites.find? (fun s => s.deployment == detail.deployment) with
  | none =>
    .err (.constraintViolation ("missing site for subgraph `"
      ++ detail.deployment ++ "`"))
  | some site =>
    match block detail.deployment "earliest_ethereum_block"
        detail.earliest_ethereum_block_hash
        detail.earliest_ethereum_block_number with
    | .err e => .err e
    | .panic => .panic
    | .ok earliest_block =>
      match block detail.deployment "latest_ethereum_block"
          detail.latest_ethereum_block_hash
          detail.latest_ethereum_block_number with
      | .err e => .err e
      | .panic => .panic
      | .ok latest_block =>
        match detail.entity_count.toU64 with
        | none =>
          .err (.constraintViolation ("the entityCount for "
            ++ detail.deployment ++ " is not representable as a u64"))
        | some entity_count =>
          match transposeError error with
          | .err e => .err e
          | .panic => .panic
          | .ok fatal_error =>
            .ok { subgraph := detail.deployment, synced := detail.synced,
                  health := detail.health, fatal_error,
                  non_fatal_errors := [],
                  chains := [{ network := site.network,
                               chain_head_block := none,
                               earliest_block, latest_block }],
                  entity_count, node := none }

/-- Embeds `Iterator::collect::<Result<Vec<_>, _>>`: gather the values until the
first non-`ok` outcome, which is returned as the whole result. -/
def collectOutcome : List (Outcome α) → Outcome (List α)
  | [] => .ok []
  | .ok a :: rest => (collectOutcome rest).map (a :: ·)
  | .err e :: _ => .err e
  | .panic :: _ => .panic

/-- The first non-`ok` outcome in a list, if any. -/
def firstNonOk : List (Outcome α) → Option (Outcome α)
  | [] => none
  | .ok _ :: rest => firstNonOk rest
  | o :: _ => some o

/-- The values of the `ok` outcomes in a list. -/
def okValues (l : List (Outcome α)) : List α :=
  l.filterMap fun o => match o with | .ok a => some a | _ => none

/-- The rows `deployment_statuses` loads for a given site list: all rows
when the list is empty, otherwise the rows whose deployment key occurs
in the site list (the SQL `filter(d::deployment.eq_any(&ids))`).  The
stored table is modelled as the list of left-outer-joined rows. -/
def selectedRows (rows : List (DeploymentDetail × Option ErrorDetail))
    (sites : List Site) : List (DeploymentDetail × Option ErrorDetail) :=
  if sites.isEmpty then rows
  else rows.filter fun r =>
    (sites.map Site.deployment).contains r.1.deployment

/-- The per-row assembly outcomes of the fetch-statuses operation. -/
def assemblies (rows : List (DeploymentDetail × Option ErrorDetail))
    (sites : List Site) : List (Outcome Info) :=
  (selectedRows rows sites).map fun r => Info.try_from r.1 r.2 sites

/-- The operation `deployment_statuses` (detail.rs, lines 244-273): load the
(deployment, optional error) rows selected by the site list and map each
through the status assembler, collecting into a single result. -/
def deployment_statuses (rows : List (DeploymentDetail × Option ErrorDetail))
    (sites : List Site) : Outcome (List Info) :=
  collectOutcome (assemblies rows sites)

/-- A raw manifest row (detail.rs, lines 275-289). -/
structure StoredSubgraphManifest where
  id : Int
  spec_version : String
  description : Option String
  repository : Option String
  features : List String
  schema : String
  graph_node_version_id : Int
deriving DecidableEq

/-- The domain manifest entity. -/
structure SubgraphManifestEntity where
  spec_version : String
  description : Option String
  repository : Option String
  features : List String
  schema : String
deriving DecidableEq

/-- Embeds `From<StoredSubgraphManifest> for SubgraphManifestEntity`
(detail.rs, lines 291-301). -/
def SubgraphManifestEntity.from (value : StoredSubgraphManifest) :
    SubgraphManifestEntity :=
  { spec_version := value.spec_version, description := value.description,
    repository := value.repository, features := value.features,
    schema := value.schema }

/-- The domain deployment entity. -/
structure SubgraphDeploymentEntity where
  manifest : SubgraphManifestEntity
  failed : Bool
  health : SubgraphHealth
  synced : Bool
  fatal_error : Option SubgraphError
  non_fatal_errors : List SubgraphError
  earliest_block : Option BlockPtr
  latest_block : Option BlockPtr
  graft_base : Option DeploymentHash
  graft_block : Option BlockPtr
  reorg_count : Int
  current_reorg_depth : Int
  max_reorg_depth : Int
deriving DecidableEq

/-- Embeds `detail.graft_base.map(DeploymentHash::new).transpose()`. -/
def transposeGraftBase : Option String → Except String (Option DeploymentHash)
  | none => .ok none
  | some b =>
    match DeploymentHash.new b with
    | .ok h => .ok (some h)
    | .error b => .error b

/-- Embeds `TryFrom<StoredDeploymentEntity> for SubgraphDeploymentEntity`
(detail.rs, lines 305-357): build the three block pointers, validate the
graft base, and assemble the entity. -/
def SubgraphDeploymentEntity.try_from (detail : DeploymentDetail)
    (manifest : StoredSubgraphManifest) : Outcome SubgraphDeploymentEntity :=
  match block detail.deployment "earliest_block"
      detail.earliest_ethereum_block_hash
      detail.earliest_ethereum_block_number with
  | .err e => .err e
  | .panic => .panic
  | .ok earliest =>
    match block detail.deployment "latest_block"
        detail.latest_ethereum_block_hash
        detail.latest_ethereum_block_number with
    | .err e => .err e
    | .panic => .panic
    | .ok latest =>
      match block detail.deployment "graft_block"
          detail.graft_block_hash detail.graft_block_number with
      | .err e => .err e
      | .panic => .panic
      | .ok graft =>
        match transposeGraftBase detail.graft_base with
        | .error b =>
          .err (.constraintViolation ("invalid graft base `" ++ b ++ "`"))
        | .ok graft_base =>
          .ok { manifest := SubgraphManifestEntity.from manifest,
                failed := detail.failed, health := detail.health,
                synced := detail.synced, fatal_error := none,
                non_fatal_errors := [],
                earliest_block := earliest.map EthereumBlock.to_ptr,
                latest_block := latest.map EthereumBlock.to_ptr,
                graft_base,
                graft_block := graft.map EthereumBlock.to_ptr,
                reorg_count := detail.reorg_count,
                current_reorg_depth := detail.current_reorg_depth,
                max_reorg_depth := detail.max_reorg_depth }

/-- The build fingerprint: the tuple the `unique_graph_node_versions`
constraint is keyed on (detail.rs, lines 377-391 minus the id). -/
structure Fingerprint where
  git_commit_hash : String
  git_repository_dirty : Bool
  crate_version : String
  major : Int
  minor : Int
  patch : Int
  pre_release : String
  rustc_version : String
  rustc_host : String
  rustc_channel : String
deriving DecidableEq

/-- The `graph_node_versions` table: its rows (id, fingerprint) and the
next identifier the store would assign to a fresh row. -/
structure VersionTable where
  rows : List (Nat × Fingerprint)
  nextId : Nat
deriving DecidableEq

/-- Well-formedness of the stored table: distinct ids, at most one row
per fingerprint (the uniqueness constraint), and every id below the next
fresh one. -/
def VersionTable.wf (t : VersionTable) : Prop :=
  (t.rows.map Prod.fst).Nodup ∧ (t.rows.map Prod.snd).Nodup ∧
    ∀ r ∈ t.rows, r.1 < t.nextId

/-- Modelled from the spec: the single-round-trip upsert
(`insert ... on_conflict(unique_graph_node_versions).do_update.set(id = id)
.returning(id)`) executed by the external relational store, which
serializes conflicting calls; atomically, it returns the existing row's
id when the fingerprint is already present, and otherwise inserts a
fresh row and returns its new id. -/
def VersionTable.upsert (t : VersionTable) (fp : Fingerprint) :
    Nat × VersionTable :=
  match t.rows.find? (fun r => r.2 == fp) with
  | some r => (r.1, t)
  | none => (t.nextId, ⟨t.rows ++ [(t.nextId, fp)], t.nextId + 1⟩)

/-- Embeds `GraphNodeVersion::create_or_get` (detail.rs, lines 394-437) with
the git and compiler probing abstracted into the already-resolved
fingerprint (those probes read build-time constants and the checkout,
not the store): register the build fingerprint idempotently and return
its stored identifier. -/
def GraphNodeVersion.create_or_get (fp : Fingerprint) (t : VersionTable) :
    Nat × VersionTable :=
  t.upsert fp

/-- A filesystem path as its list of components below the root; `[]` is
the root (whose `std::path::Path::parent` is `None`).  Named `FsPath`
because `Path` is taken in the ambient library. -/
abbrev FsPath := List String

/-- Number of rows of a table carrying a given fingerprint. -/
def VersionTable.count (t : VersionTable) (fp : Fingerprint) : Nat :=
  (t.rows.filter fun r => r.2 == fp).length

/-- Embeds `GraphNodeVersion::find_git_repository_path` (detail.rs, lines
439-452): starting from the build-time path, look for a `.git` child,
and walk to the parent until the parent chain is exhausted.  The
filesystem is abstracted as the predicate `fs` saying which paths exist. -/
def find_git_repository_path (fs : FsPath → Bool) (p : FsPath) :
    Except String FsPath :=
  if fs (p ++ [".git"]) then .ok (p ++ [".git"])
  else if hp : p = [] then .error "Could not find a git repository."
  else find_git_repository_path fs p.dropLast
termination_by p.length
decreasing_by
  have hlen : 0 < p.length := List.length_pos.mpr hp
  simp [List.length_dropLast]
  omega

/-- The chain of ancestors of a path, the path itself first and the
root last. -/
def ancestors (p : FsPath) : List FsPath :=
  if hp : p = [] then [[]]
  else p :: ancestors p.dropLast
termination_by p.length
decreasing_by
  have hlen : 0 < p.length := List.length_pos.mpr hp
  simp [List.length_dropLast]
  omega

/-- A deployment row for `sg1` with both optional block pointers absent,
entity count 42, and no graft configuration. -/
def sg1Detail : DeploymentDetail :=
  { id := 1, deployment := "sg1", failed := false,
    health := .healthy, synced := true, fatal_error := none,
    non_fatal_errors := [], earliest_ethereum_block_hash := none,
    earliest_ethereum_block_number := none,
    latest_ethereum_block_hash := none,
    latest_ethereum_block_number := none,
    last_healthy_ethereum_block_hash := none,
    last_healthy_ethereum_block_number := none,
    entity_count := ⟨42, 0⟩, graft_base := none,
    graft_block_hash := none, graft_block_number := none,
    reorg_count := 0, current_reorg_depth := 0, max_reorg_depth := 0 }

/-- A manifest row for `sg1`. -/
def sg1Manifest : StoredSubgraphManifest :=
  { id := 1, spec_version := "0.0.2", description := none,
    repository := none, features := [], schema := "type T",
    graph_node_version_id := 1 }

/-- An error row whose version-range starts at the concrete (negative)
lower bound `-1` and which carries a 32-byte hash. -/
def negBoundError : ErrorDetail :=
  { vid := 0, id := "e1", subgraph_id := "Qm1", message := "boom",
    block_hash := some (List.replicate 32 0), handler := none,
    deterministic := false,
    block_range := (.included (-1), .unbounded) }

/-- An error row with an unversioned range but a one-byte stored hash. -/
def shortHashError : ErrorDetail :=
  { vid := 0, id := "e2", subgraph_id := "Qm1", message := "m",
    block_hash := some [0], handler := none, deterministic := true,
    block_range := (.unbounded, .unbounded) }

/-- A build fingerprint of a clean checkout. -/
def cleanBuild : Fingerprint :=
  { git_commit_hash := "0a1b", git_repository_dirty := false,
    crate_version := "0.22.0", major := 0, minor := 22, patch := 0,
    pre_release := "", rustc_version := "1.51.0",
    rustc_host := "x86_64-unknown-linux-gnu", rustc_channel := "Stable" }

/-- The same build fingerprint with the dirty flag flipped. -/
def dirtyBuild : Fingerprint :=
  { cleanBuild with git_repository_dirty := true }

/-- A filesystem containing exactly a repository marker at `/a/.git`. -/
def gitAtA : FsPath → Bool :=
  fun q => q == ["a", ".git"]

/-- A filesystem containing exactly a repository marker at `/.git`. -/
def gitAtRoot : FsPath → Bool :=
  fun q => q == [".git"]

/-! ## Helper lemmas -/

theorem BigDecimal.toU64_eq_some_iff (d : BigDecimal) (n : Nat) :
    d.toU64 = some n ↔ d.reprNat n ∧ n < 2 ^ 64 := by
  have hp : (0 : Int) < (10 : Int) ^ d.scale := by positivity
  unfold BigDecimal.toU64 BigDecimal.reprNat
  split
  · rename_i h
    obtain ⟨h0, hmod, hlt⟩ := h
    have hdvd : (10 : Int) ^ d.scale ∣ d.mantissa := Int.dvd_of_emod_eq_zero hmod
    have hcancel : d.mantissa / (10 : Int) ^ d.scale * (10 : Int) ^ d.scale
        = d.mantissa := Int.ediv_mul_cancel hdvd
    have hq0 : 0 ≤ d.mantissa / (10 : Int) ^ d.scale := Int.ediv_nonneg h0 hp.le
    constructor
    · intro he
      have hn : ((d.mantissa / (10 : Int) ^ d.scale).toNat : Int)
          = d.mantissa / (10 : Int) ^ d.scale := Int.toNat_of_nonneg hq0
      have hne : (n : Int) = d.mantissa / (10 : Int) ^ d.scale := by
        have hinj := Option.some.inj he
        rw [← hinj, hn]
      constructor
      · rw [hne, hcancel]
      · have hcast : (n : Int) < 2 ^ 64 := by rw [hne]; exact_mod_cast hlt
        exact_mod_cast hcast
    · intro ⟨hrep, hlt2⟩
      have hq : d.mantissa / (10 : Int) ^ d.scale = (n : Int) := by
        rw [← hrep, Int.mul_ediv_cancel _ hp.ne']
      rw [hq]
      simp
  · rename_i h
    constructor
    · intro he
      exact absurd he (by simp)
    · intro ⟨hrep, hlt⟩
      exfalso
      apply h
      refine ⟨?_, ?_, ?_⟩
      · rw [← hrep]; positivity
      · rw [← hrep]; simp [Int.mul_emod_left]
      · rw [← hrep, Int.mul_ediv_cancel _ hp.ne']
        exact_mod_cast hlt

theorem BigDecimal.toU64_eq_none_iff (d : BigDecimal) :
    d.toU64 = none ↔ ∀ n : Nat, n < 2 ^ 64 → ¬ d.reprNat n := by
  cases h : d.toU64 with
  | none =>
    constructor
    · intro _ n hlt hrep
      have habs := (BigDecimal.toU64_eq_some_iff d n).mpr ⟨hrep, hlt⟩
      rw [h] at habs
      exact Option.noConfusion habs
    · intro _
      rfl
  | some k =>
    constructor
    · intro he
      exact absurd he (by simp)
    · intro hall
      exfalso
      have hk := (BigDecimal.toU64_eq_some_iff d k).mp h
      exact hall k hk.2 hk.1

theorem BigDecimal.reprNat_inj {d : BigDecimal} {j k : Nat}
    (hj : d.reprNat j) (hk : d.reprNat k) : j = k := by
  unfold BigDecimal.reprNat at hj hk
  have hp : (0 : Int) < (10 : Int) ^ d.scale := by positivity
  have hjk : (j : Int) = (k : Int) :=
    mul_right_cancel₀ hp.ne' (hj.trans hk.symm)
  exact_mod_cast hjk

/-! ## C1: the block pointer constructor -/

/-- C1 (amended): for every call of `block` where any present raw hash
is exactly 32 bytes long: both inputs absent gives an absent pointer
(not an error); both present with the number representable as u64 gives
a populated pointer echoing the exact values; exactly one present fails
with ConstraintViolation; both present with the number's value at least
`2 ^ 64` fails with ConstraintViolation.  (The 32-byte restriction is
forced by the counterexample below: a present hash of any other length
makes `block` panic rather than return.) -/
theorem block_pointer_constructor_amended (id name : String)
    (hash : Option (List Nat)) (number : Option BigDecimal) :
    (hash = none → number = none → block id name hash number = .ok none) ∧
    (∀ h n k, hash = some h → h.length = 32 → number = some n →
      n.reprNat k → k < 2 ^ 64 →
      block id name hash number = .ok (some ⟨h, k⟩)) ∧
    (hash.isSome ≠ number.isSome →
      ∃ msg, block id name hash number = .err (.constraintViolation msg)) ∧
    (∀ h n k, hash = some h → h.length = 32 → number = some n →
      n.reprNat k → 2 ^ 64 ≤ k →
      ∃ msg, block id name hash number = .err (.constraintViolation msg)) := by
  refine ⟨?_, ?_, ?_, ?_⟩
  · intro hh hn
    subst hh; subst hn
    rfl
  · intro h n k hh hlen hn hrep hlt
    subst hh; subst hn
    have ht : n.toU64 = some k := (BigDecimal.toU64_eq_some_iff n k).mpr ⟨hrep, hlt⟩
    simp [block, H256.fromSlice, hlen, ht]
  · intro hne
    cases hash with
    | none =>
      cases number with
      | none => simp at hne
      | some n => exact ⟨_, rfl⟩
    | some h =>
      cases number with
      | none => exact ⟨_, rfl⟩
      | some n => simp at hne
  · intro h n k hh hlen hn hrep hge
    subst hh; subst hn
    have ht : n.toU64 = none := by
      cases htu : n.toU64 with
      | none => rfl
      | some j =>
        have hj := (BigDecimal.toU64_eq_some_iff n j).mp htu
        have hjk : j = k := BigDecimal.reprNat_inj hj.1 hrep
        omega
    simp [block, H256.fromSlice, hlen, ht]

/-- C1 counterexample: with a present 3-byte hash and a representable
number, `block` panics (models `H256::from_slice`'s length assertion)
instead of returning the populated pointer the claim promises. -/
theorem block_pointer_constructor_counterexample :
    block "sg1" "earliest_ethereum_block" (some [1, 2, 3]) (some ⟨5, 0⟩)
      = .panic ∧
    block "sg1" "earliest_ethereum_block" (some [1, 2, 3]) (some ⟨5, 0⟩)
      ≠ .ok (some ⟨[1, 2, 3], 5⟩) :=
  ⟨rfl, by decide⟩

/-- C1 witness: the amended theorem applied to a 32-byte hash and the
number 100. -/
theorem block_pointer_constructor_witness :
    block "sg1" "earliest_ethereum_block" (some (List.replicate 32 170))
      (some ⟨100, 0⟩) = .ok (some ⟨List.replicate 32 170, 100⟩) :=
  (block_pointer_constructor_amended "sg1" "earliest_ethereum_block"
    (some (List.replicate 32 170)) (some ⟨100, 0⟩)).2.1
    (List.replicate 32 170) ⟨100, 0⟩ 100 rfl (by decide) rfl
    (by unfold BigDecimal.reprNat; decide) (by decide)

/-! ## C10: non-32-byte hashes abort instead of erroring -/

/-- C10: `block` with a present one-byte hash and a present number
panics (aborts via the modelled `H256::from_slice` length assertion)
instead of returning an error, and the error-record conversion panics
the same way on a stored one-byte hash. -/
theorem short_hash_panics :
    block "sg1" "latest_ethereum_block" (some [0]) (some ⟨1, 0⟩) = .panic ∧
    SubgraphError.try_from shortHashError = .panic :=
  ⟨rfl, rfl⟩

/-! ## C2: missing site -/

/-- C2: for every raw deployment row and site list, the status assembler
fails with ConstraintViolation "missing site for subgraph `<key>`"
whenever no supplied site's deployment key equals the row's; in
particular `deployment_statuses` with an empty site list fails for any
non-empty stored row set. -/
theorem missing_site_spec :
    (∀ (detail : DeploymentDetail) (error : Option ErrorDetail)
        (sites : List Site),
      (∀ s ∈ sites, s.deployment ≠ detail.deployment) →
      Info.try_from detail error sites =
        .err (.constraintViolation ("missing site for subgraph `"
          ++ detail.deployment ++ "`"))) ∧
    (∀ rows : List (DeploymentDetail × Option ErrorDetail), rows ≠ [] →
      ∃ msg, deployment_statuses rows [] = .err (.constraintViolation msg)) := by
  have hmain : ∀ (detail : DeploymentDetail) (error : Option ErrorDetail)
      (sites : List Site),
      (∀ s ∈ sites, s.deployment ≠ detail.deployment) →
      Info.try_from detail error sites =
        .err (.constraintViolation ("missing site for subgraph `"
          ++ detail.deployment ++ "`")) := by
    intro detail error sites hno
    have hfind : sites.find? (fun s => s.deployment == detail.deployment)
        = none := by
      rw [List.find?_eq_none]
      intro s hs
      simpa using hno s hs
    simp [Info.try_from, hfind]
  refine ⟨hmain, ?_⟩
  intro rows hne
  cases rows with
  | nil => exact absurd rfl hne
  | cons r rest =>
    refine ⟨"missing site for subgraph `" ++ r.1.deployment ++ "`", ?_⟩
    have h1 : Info.try_from r.1 r.2 [] =
        .err (.constraintViolation ("missing site for subgraph `"
          ++ r.1.deployment ++ "`")) :=
      hmain r.1 r.2 [] (by simp)
    simp [deployment_statuses, assemblies, selectedRows, collectOutcome, h1]

/-- C2 witness: the site-lookup failure at the `sg1` row with an empty
site list, and the whole fetch failing over a one-row store. -/
theorem missing_site_witness :
    Info.try_from sg1Detail none [] =
      .err (.constraintViolation "missing site for subgraph `sg1`") ∧
    ∃ msg, deployment_statuses [(sg1Detail, none)] []
      = .err (.constraintViolation msg) :=
  ⟨missing_site_spec.1 sg1Detail none [] (by simp),
   missing_site_spec.2 [(sg1Detail, none)] (by simp)⟩

/-! ## C9: invariants of every assembled status -/

/-- C9: every status the assembler returns has an empty non-fatal-error
list, an unset node assignment, and exactly one per-chain entry, whose
chain-head block is unset and whose network is the matched site's. -/
theorem status_info_invariants (detail : DeploymentDetail)
    (error : Option ErrorDetail) (sites : List Site) (info : Info) :
    Info.try_from detail error sites = .ok info →
    info.non_fatal_errors = [] ∧ info.node = none ∧
    ∃ site, sites.find? (fun s => s.deployment == detail.deployment)
        = some site ∧ site ∈ sites ∧ site.deployment = detail.deployment ∧
      ∃ c, info.chains = [c] ∧ c.chain_head_block = none ∧
        c.network = site.network := by
  intro h
  unfold Info.try_from at h
  cases hfind : sites.find? (fun s => s.deployment == detail.deployment) with
  | none => rw [hfind] at h; simp at h
  | some site =>
    rw [hfind] at h
    cases hEB : block detail.deployment "earliest_ethereum_block"
        detail.earliest_ethereum_block_hash
        detail.earliest_ethereum_block_number with
    | err e => rw [hEB] at h; simp at h
    | panic => rw [hEB] at h; simp at h
    | ok eb =>
      rw [hEB] at h
      cases hLB : block detail.deployment "latest_ethereum_block"
          detail.latest_ethereum_block_hash
          detail.latest_ethereum_block_number with
      | err e => rw [hLB] at h; simp at h
      | panic => rw [hLB] at h; simp at h
      | ok lb =>
        rw [hLB] at h
        cases hCnt : detail.entity_count.toU64 with
        | none => rw [hCnt] at h; simp at h
        | some cnt =>
          rw [hCnt] at h
          cases hFe : transposeError error with
          | err e => rw [hFe] at h; simp at h
          | panic => rw [hFe] at h; simp at h
          | ok fe =>
            rw [hFe] at h
            simp only [Outcome.ok.injEq] at h
            subst h
            refine ⟨rfl, rfl, site, rfl, List.mem_of_find?_eq_some hfind,
              ?_, ?_⟩
            · have hbeq := List.find?_some hfind
              simpa using hbeq
            · exact ⟨_, rfl, rfl, rfl⟩

/-- C9 witness: the invariants hold of the concretely assembled status
for `sg1`. -/
theorem status_info_invariants_witness :
    ∃ info, Info.try_from sg1Detail none [⟨"sg1", "mainnet"⟩] = .ok info ∧
      info.non_fatal_errors = [] ∧ info.node = none ∧
      ∃ c, info.chains = [c] ∧ c.chain_head_block = none ∧
        c.network = "mainnet" := by
  have h : Info.try_from sg1Detail none [⟨"sg1", "mainnet"⟩] =
      .ok { subgraph := "sg1", synced := true, health := .healthy,
            fatal_error := none, non_fatal_errors := [],
            chains := [{ network := "mainnet", chain_head_block := none,
                         earliest_block := none, latest_block := none }],
            entity_count := 42, node := none } := by
    simp [Info.try_from, sg1Detail, block, BigDecimal.toU64, transposeError]
  obtain ⟨-, hnode, site, hfind, -, -, c, hc, hhead, hnet⟩ :=
    status_info_invariants sg1Detail none [⟨"sg1", "mainnet"⟩] _ h
  exact ⟨_, h, by simp, hnode, c, hc, hhead, by
    have hsite : site = ⟨"sg1", "mainnet"⟩ := ((by simpa using hfind :
      "sg1" = sg1Detail.deployment ∧
        (⟨"sg1", "mainnet"⟩ : Site) = site).2).symm
    rw [hnet, hsite]⟩

/-! ## C7: entity-count conversion -/

/-- C7: when the other fields assemble (site matched, both block
pointers built), the assembler yields a status whose entity count is the
exact u64 value of the stored decimal whenever that value is a
nonnegative integer below `2 ^ 64`, and fails with ConstraintViolation
whenever the decimal has no such value (negative, fractional, or too
large). -/
theorem entity_count_spec (detail : DeploymentDetail)
    (error : Option ErrorDetail) (sites : List Site) (site : Site)
    (eb lb : Option EthereumBlock)
    (hfind : sites.find? (fun s => s.deployment == detail.deployment)
      = some site)
    (hEB : block detail.deployment "earliest_ethereum_block"
      detail.earliest_ethereum_block_hash
      detail.earliest_ethereum_block_number = .ok eb)
    (hLB : block detail.deployment "latest_ethereum_block"
      detail.latest_ethereum_block_hash
      detail.latest_ethereum_block_number = .ok lb) :
    ((∀ n : Nat, n < 2 ^ 64 → ¬ detail.entity_count.reprNat n) →
      Info.try_from detail error sites =
        .err (.constraintViolation ("the entityCount for "
          ++ detail.deployment ++ " is not representable as a u64"))) ∧
    (∀ n fe, n < 2 ^ 64 → detail.entity_count.reprNat n →
      transposeError error = .ok fe →
      ∃ info, Info.try_from detail error sites = .ok info ∧
        info.entity_count = n) := by
  constructor
  · intro hnone
    have hCnt : detail.entity_count.toU64 = none :=
      (BigDecimal.toU64_eq_none_iff detail.entity_count).mpr hnone
    unfold Info.try_from
    rw [hfind, hEB, hLB, hCnt]
  · intro n fe hlt hrep hfe
    have hCnt : detail.entity_count.toU64 = some n :=
      (BigDecimal.toU64_eq_some_iff detail.entity_count n).mpr ⟨hrep, hlt⟩
    unfold Info.try_from
    rw [hfind, hEB, hLB, hCnt, hfe]
    exact ⟨_, rfl, rfl⟩

/-- C7 witness: the `sg1` row's entity count 42 is echoed exactly. -/
theorem entity_count_witness :
    ∃ info, Info.try_from sg1Detail none [⟨"sg1", "mainnet"⟩] = .ok info ∧
      info.entity_count = 42 :=
  (entity_count_spec sg1Detail none [⟨"sg1", "mainnet"⟩]
    ⟨"sg1", "mainnet"⟩ none none (by decide) rfl rfl).2 42 none (by decide)
    (by unfold BigDecimal.reprNat; decide) rfl

/-! ## C3: the error-record fallback block pointer -/

theorem mapHash_ok_elim (o : Option (List Nat)) (bh : Option H256)
    (hm : mapHash o = .ok bh) :
    (o = none ∧ bh = none) ∨ ∃ h, o = some h ∧ bh = some h ∧ h.length = 32 := by
  cases o with
  | none =>
    left
    simp only [mapHash] at hm
    exact ⟨rfl, (Outcome.ok.inj hm).symm⟩
  | some h =>
    right
    simp only [mapHash] at hm
    cases hfs : H256.fromSlice h with
    | none => rw [hfs] at hm; exact absurd hm (by simp)
    | some h256 =>
      rw [hfs] at hm
      have hinj := Outcome.ok.inj hm
      have hlen : h.length = 32 := by
        unfold H256.fromSlice at hfs
        by_contra hne
        rw [if_neg hne] at hfs
        exact Option.noConfusion hfs
      have h256h : h256 = h := by
        unfold H256.fromSlice at hfs
        rw [if_pos hlen] at hfs
        exact (Option.some.inj hfs).symm
      exact ⟨h, rfl, by rw [← hinj, h256h], hlen⟩

theorem mapHash_ok_none : mapHash none = .ok none := rfl

theorem mapHash_ok_some (h : List Nat) (hlen : h.length = 32) :
    mapHash (some h) = .ok (some h) := by
  simp only [mapHash, H256.fromSlice]
  rw [hlen]
  rfl

theorem finish_ok_elim (v : ErrorDetail) (bn : Option Int)
    (bh : Option H256) (res : SubgraphError)
    (hres : SubgraphError.finish v bn bh = .ok res) :
    ((∃ p, res.block_ptr = some p) ↔ bn.isSome = true ∧ bh.isSome = true) ∧
    (∀ n h, bn = some n → bh = some h →
      res.block_ptr = some ⟨h, intAsU64 n⟩) := by
  simp only [SubgraphError.finish] at hres
  cases hnew : DeploymentHash.new v.subgraph_id with
  | error i => rw [hnew] at hres; exact absurd hres (by simp)
  | ok hid =>
    rw [hnew] at hres
    simp only [Outcome.ok.injEq] at hres
    subst hres
    constructor
    · cases bn with
      | none => cases bh <;> simp
      | some n => cases bh <;> simp
    · intro n h hn hh
      subst hn; subst hh
      simp

theorem finish_ok_of_valid (v : ErrorDetail) (bn : Option Int)
    (bh : Option H256)
    (hvalid : DeploymentHash.isValid v.subgraph_id = true) :
    ∃ res, SubgraphError.finish v bn bh = .ok res := by
  have hnew : DeploymentHash.new v.subgraph_id = .ok ⟨v.subgraph_id⟩ := by
    unfold DeploymentHash.new
    rw [hvalid]
    rfl
  refine ⟨{ subgraph_id := ⟨v.subgraph_id⟩, message := v.message,
            block_ptr := match bn, bh with
              | some number, some hash => some ⟨hash, intAsU64 number⟩
              | _, _ => none,
            handler := v.handler, deterministic := v.deterministic }, ?_⟩
  simp only [SubgraphError.finish]
  rw [hnew]

/-- C3 (amended): whenever the conversion of a raw error row succeeds,
the produced error carries a block pointer exactly when the
version-range's lower bound is concrete and a hash is stored, the
pointer's hash is the stored hash, and its number is the starting block
number derived from the lower bound reduced modulo `2 ^ 64` (equal to
the bound itself whenever it is nonnegative — the reduction is forced by
the counterexample below); and absence of a hash or an unversioned range
never makes the conversion fail. -/
theorem error_conversion_amended (v : ErrorDetail) :
    (∀ res, SubgraphError.try_from v = .ok res →
      ((∃ p, res.block_ptr = some p) ↔
        (∃ n, first_block_in_range v.block_range = some n) ∧
          ∃ h, v.block_hash = some h) ∧
      (∀ n h, first_block_in_range v.block_range = some n →
        v.block_hash = some h → res.block_ptr = some ⟨h, intAsU64 n⟩)) ∧
    (DeploymentHash.isValid v.subgraph_id = true →
      (v.block_hash = none ∨ ∃ h, v.block_hash = some h ∧ h.length = 32) →
      ∃ res, SubgraphError.try_from v = .ok res) := by
  constructor
  · intro res hres
    simp only [SubgraphError.try_from] at hres
    cases hmh : mapHash v.block_hash with
    | err e => rw [hmh] at hres; exact absurd hres (by simp)
    | panic => rw [hmh] at hres; exact absurd hres (by simp)
    | ok bh =>
      rw [hmh] at hres
      obtain ⟨hiff, hdet⟩ :=
        finish_ok_elim v (first_block_in_range v.block_range) bh res hres
      rcases mapHash_ok_elim v.block_hash bh hmh with
        ⟨hbnone, rfl⟩ | ⟨h, hbsome, rfl, hlen⟩
      · constructor
        · rw [hiff]
          simp [hbnone]
        · intro n h hn hh
          rw [hbnone] at hh
          exact Option.noConfusion hh
      · constructor
        · rw [hiff]
          simp [hbsome, Option.isSome_iff_exists]
        · intro n h' hn hh'
          rw [hbsome] at hh'
          obtain rfl := Option.some.inj hh'
          exact hdet n h hn rfl
  · intro hvalid hshape
    rcases hshape with hnone | ⟨h, hsome, hlen⟩
    · obtain ⟨res, hfin⟩ := finish_ok_of_valid v
        (first_block_in_range v.block_range) none hvalid
      refine ⟨res, ?_⟩
      simp only [SubgraphError.try_from]
      rw [hnone, mapHash_ok_none]
      exact hfin
    · obtain ⟨res, hfin⟩ := finish_ok_of_valid v
        (first_block_in_range v.block_range) (some h) hvalid
      refine ⟨res, ?_⟩
      simp only [SubgraphError.try_from]
      rw [hsome, mapHash_ok_some h hlen]
      exact hfin

/-- C3 counterexample: an error row whose version-range lower bound is
the concrete value `-1` converts successfully, but the produced
pointer's number is `2 ^ 64 - 1` (the Rust `as u64` cast), not the lower
bound `-1` the claim promises. -/
theorem error_conversion_counterexample :
    SubgraphError.try_from negBoundError =
      .ok { subgraph_id := ⟨"Qm1"⟩, message := "boom",
            block_ptr := some ⟨List.replicate 32 0, 18446744073709551615⟩,
            handler := none, deterministic := false } ∧
    first_block_in_range negBoundError.block_range = some (-1) ∧
    (18446744073709551615 : Int) ≠ -1 :=
  ⟨by decide, rfl, by decide⟩

/-- C3 witness: the amended theorem applied to the negative-lower-bound
row: conversion succeeds and the pointer is the stored hash with the
reduced number. -/
theorem error_conversion_witness :
    ∃ res, SubgraphError.try_from negBoundError = .ok res ∧
      res.block_ptr = some ⟨List.replicate 32 0, intAsU64 (-1)⟩ := by
  obtain ⟨res, hres⟩ := (error_conversion_amended negBoundError).2
    (by decide) (.inr ⟨List.replicate 32 0, rfl, by decide⟩)
  exact ⟨res, hres,
    ((error_conversion_amended negBoundError).1 res hres).2 (-1)
      (List.replicate 32 0) rfl rfl⟩

/-! ## C6: graft-base validation -/

/-- C6: when the three block-pointer computations succeed, the
deployment-entity reconstruction fails with ConstraintViolation
"invalid graft base `<value>`" exactly on a present graft base that does
not parse as a deployment identifier (the empty string is such a value),
a well-formed graft base round-trips unchanged into the entity, and an
absent graft base yields an entity with an absent graft base. -/
theorem graft_base_spec (detail : DeploymentDetail)
    (manifest : StoredSubgraphManifest) (eb lb gb : Option EthereumBlock)
    (hEB : block detail.deployment "earliest_block"
      detail.earliest_ethereum_block_hash
      detail.earliest_ethereum_block_number = .ok eb)
    (hLB : block detail.deployment "latest_block"
      detail.latest_ethereum_block_hash
      detail.latest_ethereum_block_number = .ok lb)
    (hGB : block detail.deployment "graft_block"
      detail.graft_block_hash detail.graft_block_number = .ok gb) :
    DeploymentHash.isValid "" = false ∧
    (∀ b, detail.graft_base = some b → DeploymentHash.isValid b = false →
      SubgraphDeploymentEntity.try_from detail manifest =
        .err (.constraintViolation ("invalid graft base `" ++ b ++ "`"))) ∧
    (∀ b, detail.graft_base = some b → DeploymentHash.isValid b = true →
      ∃ ent, SubgraphDeploymentEntity.try_from detail manifest = .ok ent ∧
        ent.graft_base = some ⟨b⟩) ∧
    (detail.graft_base = none →
      ∃ ent, SubgraphDeploymentEntity.try_from detail manifest = .ok ent ∧
        ent.graft_base = none) := by
  refine ⟨by decide, ?_, ?_, ?_⟩
  · intro b hb hbad
    have hnew : DeploymentHash.new b = .error b := by
      unfold DeploymentHash.new
      rw [hbad]
      rfl
    have htg : transposeGraftBase detail.graft_base = .error b := by
      rw [hb]
      simp only [transposeGraftBase]
      rw [hnew]
    unfold SubgraphDeploymentEntity.try_from
    rw [hEB, hLB, hGB, htg]
  · intro b hb hgood
    have hnew : DeploymentHash.new b = .ok ⟨b⟩ := by
      unfold DeploymentHash.new
      rw [hgood]
      rfl
    have htg : transposeGraftBase detail.graft_base = .ok (some ⟨b⟩) := by
      rw [hb]
      simp only [transposeGraftBase]
      rw [hnew]
    refine ⟨{ manifest := SubgraphManifestEntity.from manifest,
              failed := detail.failed, health := detail.health,
              synced := detail.synced, fatal_error := none,
              non_fatal_errors := [],
              earliest_block := eb.map EthereumBlock.to_ptr,
              latest_block := lb.map EthereumBlock.to_ptr,
              graft_base := some ⟨b⟩,
              graft_block := gb.map EthereumBlock.to_ptr,
              reorg_count := detail.reorg_count,
              current_reorg_depth := detail.current_reorg_depth,
              max_reorg_depth := detail.max_reorg_depth }, ?_, rfl⟩
    unfold SubgraphDeploymentEntity.try_from
    rw [hEB, hLB, hGB, htg]
  · intro hb
    have htg : transposeGraftBase detail.graft_base = .ok none := by
      rw [hb]
      rfl
    refine ⟨{ manifest := SubgraphManifestEntity.from manifest,
              failed := detail.failed, health := detail.health,
              synced := detail.synced, fatal_error := none,
              non_fatal_errors := [],
              earliest_block := eb.map EthereumBlock.to_ptr,
              latest_block := lb.map EthereumBlock.to_ptr,
              graft_base := none,
              graft_block := gb.map EthereumBlock.to_ptr,
              reorg_count := detail.reorg_count,
              current_reorg_depth := detail.current_reorg_depth,
              max_reorg_depth := detail.max_reorg_depth }, ?_, rfl⟩
    unfold SubgraphDeploymentEntity.try_from
    rw [hEB, hLB, hGB, htg]

/-- C6 witness: reconstruction of `sg1` with an empty graft base fails
with the expected message, and without a graft base succeeds with an
absent one. -/
theorem graft_base_witness :
    SubgraphDeploymentEntity.try_from
        { sg1Detail with graft_base := some "" } sg1Manifest =
      .err (.constraintViolation "invalid graft base ``") ∧
    ∃ ent, SubgraphDeploymentEntity.try_from sg1Detail sg1Manifest
        = .ok ent ∧ ent.graft_base = none :=
  ⟨(graft_base_spec { sg1Detail with graft_base := some "" } sg1Manifest
      none none none rfl rfl rfl).2.1 "" rfl (by decide),
   (graft_base_spec sg1Detail sg1Manifest none none none
      rfl rfl rfl).2.2.2 rfl⟩

/-! ## C4: no partial results -/

theorem collect_firstNonOk_none (l : List (Outcome α))
    (h : firstNonOk l = none) : collectOutcome l = .ok (okValues l) := by
  induction l with
  | nil => rfl
  | cons x xs ih =>
    cases x with
    | ok a =>
      have hxs : firstNonOk xs = none := by simpa [firstNonOk] using h
      simp [collectOutcome, okValues, ih hxs, Outcome.map]
    | err e => simp [firstNonOk] at h
    | panic => simp [firstNonOk] at h

theorem collect_firstNonOk_err (l : List (Outcome α)) (e : StoreError)
    (h : firstNonOk l = some (.err e)) : collectOutcome l = .err e := by
  induction l with
  | nil => simp [firstNonOk] at h
  | cons x xs ih =>
    cases x with
    | ok a =>
      have hxs : firstNonOk xs = some (.err e) := by
        simpa [firstNonOk] using h
      simp [collectOutcome, ih hxs, Outcome.map]
    | err e2 =>
      have he : e2 = e := by simpa [firstNonOk] using h
      subst he
      rfl
    | panic => simp [firstNonOk] at h

theorem collect_firstNonOk_panic (l : List (Outcome α))
    (h : firstNonOk l = some .panic) : collectOutcome l = .panic := by
  induction l with
  | nil => simp [firstNonOk] at h
  | cons x xs ih =>
    cases x with
    | ok a =>
      have hxs : firstNonOk xs = some .panic := by
        simpa [firstNonOk] using h
      simp [collectOutcome, ih hxs, Outcome.map]
    | err e2 => simp [firstNonOk] at h
    | panic => rfl

theorem collect_ok_elim (l : List (Outcome α)) (L : List α)
    (h : collectOutcome l = .ok L) :
    (∀ x ∈ l, ∃ a, x = .ok a) ∧ L = okValues l := by
  induction l generalizing L with
  | nil =>
    simp [collectOutcome] at h
    subst h
    exact ⟨by simp, by simp [okValues]⟩
  | cons x xs ih =>
    cases x with
    | ok a =>
      cases hxs : collectOutcome xs with
      | ok Lxs =>
        simp only [collectOutcome, hxs, Outcome.map, Outcome.ok.injEq] at h
        obtain ⟨hall, hvals⟩ := ih Lxs hxs
        constructor
        · intro x hx
          rcases List.mem_cons.mp hx with rfl | hmem
          · exact ⟨a, rfl⟩
          · exact hall x hmem
        · rw [← h, hvals]
          simp [okValues]
      | err e => simp [collectOutcome, hxs, Outcome.map] at h
      | panic => simp [collectOutcome, hxs, Outcome.map] at h
    | err e => simp [collectOutcome] at h
    | panic => simp [collectOutcome] at h

/-- C4: the fetch-statuses operation returns a list exactly when every
selected row assembles, in which case the list is the per-row successes;
as soon as some row fails to assemble, the whole operation returns the
first non-successful assembly outcome (error or panic) and no partial
list. -/
theorem deployment_statuses_spec
    (rows : List (DeploymentDetail × Option ErrorDetail))
    (sites : List Site) :
    (∀ L, deployment_statuses rows sites = .ok L →
      (∀ x ∈ assemblies rows sites, ∃ a, x = .ok a) ∧
      L = okValues (assemblies rows sites)) ∧
    (∀ e, firstNonOk (assemblies rows sites) = some (.err e) →
      deployment_statuses rows sites = .err e) ∧
    (firstNonOk (assemblies rows sites) = some .panic →
      deployment_statuses rows sites = .panic) ∧
    (firstNonOk (assemblies rows sites) = none →
      deployment_statuses rows sites =
        .ok (okValues (assemblies rows sites))) :=
  ⟨fun L h => collect_ok_elim (assemblies rows sites) L h,
   fun e h => collect_firstNonOk_err (assemblies rows sites) e h,
   fun h => collect_firstNonOk_panic (assemblies rows sites) h,
   fun h => collect_firstNonOk_none (assemblies rows sites) h⟩

/-- C4 witness: over a one-row store with an empty site list, the first
(and only) assembly fails, and the whole operation returns exactly that
failure. -/
theorem deployment_statuses_witness :
    deployment_statuses [(sg1Detail, none)] [] =
      .err (.constraintViolation "missing site for subgraph `sg1`") :=
  (deployment_statuses_spec [(sg1Detail, none)] []).2.1
    (.constraintViolation "missing site for subgraph `sg1`") (by decide)

/-! ## C5: idempotent build registration -/

theorem count_one_of_mem (l : List (Nat × Fingerprint)) (fp : Fingerprint)
    (r : Nat × Fingerprint) (hnd : (l.map Prod.snd).Nodup) (hm : r ∈ l)
    (hr : r.2 = fp) : (l.filter fun x => x.2 == fp).length = 1 := by
  induction l with
  | nil => simp at hm
  | cons x xs ih =>
    simp only [List.map_cons, List.nodup_cons] at hnd
    obtain ⟨hx, hxs⟩ := hnd
    rcases List.mem_cons.mp hm with rfl | hmem
    · have hnone : xs.filter (fun y => y.2 == fp) = [] := by
        rw [List.filter_eq_nil_iff]
        intro y hy
        simp only [beq_iff_eq]
        intro hyfp
        have hyin : r.2 ∈ List.map Prod.snd xs := by
          rw [hr, ← hyfp]
          exact List.mem_map_of_mem Prod.snd hy
        exact hx hyin
      simp [List.filter_cons, hr, hnone]
    · have hfpmem : fp ∈ xs.map Prod.snd := by
        rw [← hr]
        exact List.mem_map_of_mem Prod.snd hmem
      have hxne : (x.2 == fp) = false :=
        beq_eq_false_iff_ne.mpr fun hxx => hx (hxx ▸ hfpmem)
      simp [List.filter_cons, hxne, ih hxs hmem]

theorem find?_append_of_none (l1 l2 : List (Nat × Fingerprint))
    (p : Nat × Fingerprint → Bool) (h : l1.find? p = none) :
    (l1 ++ l2).find? p = l2.find? p := by
  induction l1 with
  | nil => rfl
  | cons x xs ih =>
    have hall := List.find?_eq_none.mp h
    have hx : p x = false := by
      have hmem := hall x (List.mem_cons_self x xs)
      simpa using hmem
    have hxs : xs.find? p = none := by
      rw [List.find?_eq_none]
      intro y hy
      exact hall y (List.mem_cons_of_mem x hy)
    rw [List.cons_append, List.find?_cons_of_neg _ (by simp [hx]), ih hxs]

theorem upsert_eq_of_found (t : VersionTable) (fp : Fingerprint)
    (r : Nat × Fingerprint)
    (hfind : t.rows.find? (fun x => x.2 == fp) = some r) :
    t.upsert fp = (r.1, t) := by
  unfold VersionTable.upsert
  rw [hfind]

theorem upsert_eq_of_missing (t : VersionTable) (fp : Fingerprint)
    (hfind : t.rows.find? (fun x => x.2 == fp) = none) :
    t.upsert fp = (t.nextId, ⟨t.rows ++ [(t.nextId, fp)], t.nextId + 1⟩) := by
  unfold VersionTable.upsert
  rw [hfind]

theorem upsert_wf (t : VersionTable) (fp : Fingerprint) (hwf : t.wf) :
    (t.upsert fp).2.wf := by
  obtain ⟨hid, hfp, hlt⟩ := hwf
  cases hfind : t.rows.find? (fun x => x.2 == fp) with
  | some r =>
    rw [upsert_eq_of_found t fp r hfind]
    exact ⟨hid, hfp, hlt⟩
  | none =>
    rw [upsert_eq_of_missing t fp hfind]
    refine ⟨?_, ?_, ?_⟩
    · simp only [List.map_append]
      rw [List.nodup_append]
      refine ⟨hid, by simp, ?_⟩
      intro a ha hb
      simp only [List.map_cons, List.map_nil, List.mem_cons,
        List.not_mem_nil, or_false] at hb
      obtain ⟨r, hrmem, hra⟩ := List.mem_map.mp ha
      have hless := hlt r hrmem
      omega
    · simp only [List.map_append]
      rw [List.nodup_append]
      refine ⟨hfp, by simp, ?_⟩
      intro a ha hb
      simp only [List.map_cons, List.map_nil, List.mem_cons,
        List.not_mem_nil, or_false] at hb
      subst hb
      obtain ⟨r, hrmem, hra⟩ := List.mem_map.mp ha
      have hfail := List.find?_eq_none.mp hfind r hrmem
      simp only [beq_iff_eq] at hfail
      exact hfail hra
    · intro r hr
      rcases List.mem_append.mp hr with hmem | hmem
      · have hless := hlt r hmem
        show r.1 < t.nextId + 1
        omega
      · simp only [List.mem_cons, List.not_mem_nil, or_false] at hmem
        subst hmem
        simp

theorem upsert_find (t : VersionTable) (fp : Fingerprint) :
    ((t.upsert fp).2).rows.find? (fun r => r.2 == fp)
      = some ((t.upsert fp).1, fp) := by
  cases hfind : t.rows.find? (fun x => x.2 == fp) with
  | some r =>
    rw [upsert_eq_of_found t fp r hfind]
    have hr2 : r.2 = fp := by
      have hbeq := List.find?_some hfind
      simpa using hbeq
    simpa [← hr2] using hfind
  | none =>
    rw [upsert_eq_of_missing t fp hfind]
    simp only []
    rw [find?_append_of_none t.rows _ _ hfind]
    rw [List.find?_cons_of_pos _ (by simp)]

/-- C5: registration is idempotent with respect to the build
fingerprint: over any well-formed stored table, registering the same
fingerprint twice returns the same identifier and leaves the table
unchanged with exactly one row for that fingerprint (so any number of
serialized callers — the store serializes the conflicting upserts —
converge on that row), while registering a fingerprint with any
component changed yields a distinct identifier. -/
theorem create_or_get_idempotent (t : VersionTable) (fp fp2 : Fingerprint)
    (hwf : t.wf) :
    (GraphNodeVersion.create_or_get fp
        (GraphNodeVersion.create_or_get fp t).2).1
      = (GraphNodeVersion.create_or_get fp t).1 ∧
    (GraphNodeVersion.create_or_get fp
        (GraphNodeVersion.create_or_get fp t).2).2
      = (GraphNodeVersion.create_or_get fp t).2 ∧
    (GraphNodeVersion.create_or_get fp t).2.count fp = 1 ∧
    (GraphNodeVersion.create_or_get fp t).2.wf ∧
    (fp2 ≠ fp →
      (GraphNodeVersion.create_or_get fp2
          (GraphNodeVersion.create_or_get fp t).2).1
        ≠ (GraphNodeVersion.create_or_get fp t).1) := by
  unfold GraphNodeVersion.create_or_get
  set t1 := (t.upsert fp).2 with ht1
  set id1 := (t.upsert fp).1 with hid1
  have hwf1 : t1.wf := upsert_wf t fp hwf
  have hfind1 : t1.rows.find? (fun r => r.2 == fp) = some (id1, fp) :=
    upsert_find t fp
  have hmem1 : (id1, fp) ∈ t1.rows := List.mem_of_find?_eq_some hfind1
  have hsecond : t1.upsert fp = (id1, t1) :=
    upsert_eq_of_found t1 fp (id1, fp) hfind1
  refine ⟨by rw [hsecond], by rw [hsecond], ?_, hwf1, ?_⟩
  · exact count_one_of_mem t1.rows fp (id1, fp) hwf1.2.1 hmem1 rfl
  · intro hne
    obtain ⟨hidnd, hfpnd, hlt⟩ := hwf1
    cases hfind2 : t1.rows.find? (fun r => r.2 == fp2) with
    | some r2 =>
      have hmem2 : r2 ∈ t1.rows := List.mem_of_find?_eq_some hfind2
      have hr2 : r2.2 = fp2 := by
        have hbeq := List.find?_some hfind2
        simpa using hbeq
      rw [upsert_eq_of_found t1 fp2 r2 hfind2]
      intro heq
      have hinj := List.inj_on_of_nodup_map hidnd
      have hr2eq : r2 = (id1, fp) := hinj hmem2 hmem1 heq
      rw [hr2eq] at hr2
      exact hne hr2.symm
    | none =>
      rw [upsert_eq_of_missing t1 fp2 hfind2]
      have hless := hlt (id1, fp) hmem1
      simp only []
      omega

/-- C5 witness: registering the clean-build fingerprint twice on an
empty store returns the same id and keeps one row, while the
dirty-flipped fingerprint gets a different id. -/
theorem create_or_get_witness :
    (GraphNodeVersion.create_or_get cleanBuild
        (GraphNodeVersion.create_or_get cleanBuild ⟨[], 0⟩).2).1
      = (GraphNodeVersion.create_or_get cleanBuild ⟨[], 0⟩).1 ∧
    (GraphNodeVersion.create_or_get cleanBuild ⟨[], 0⟩).2.count cleanBuild
      = 1 ∧
    (GraphNodeVersion.create_or_get dirtyBuild
        (GraphNodeVersion.create_or_get cleanBuild ⟨[], 0⟩).2).1
      ≠ (GraphNodeVersion.create_or_get cleanBuild ⟨[], 0⟩).1 := by
  have h := create_or_get_idempotent ⟨[], 0⟩ cleanBuild dirtyBuild
    (by refine ⟨by simp, by simp, ?_⟩; intro r hr; simp at hr)
  exact ⟨h.1, h.2.2.1, h.2.2.2.2 (by decide)⟩

/-! ## C8: the repository-discovery walk -/

theorem ancestors_nil : ancestors [] = [[]] := by
  simp [ancestors]

theorem ancestors_cons (x : String) (xs : List String) :
    ancestors (x :: xs) = (x :: xs) :: ancestors (x :: xs).dropLast := by
  rw [ancestors]
  simp

theorem find_git_eq_ok (fs : FsPath → Bool) (p : FsPath)
    (h : fs (p ++ [".git"]) = true) :
    find_git_repository_path fs p = .ok (p ++ [".git"]) := by
  rw [find_git_repository_path]
  simp [h]

theorem find_git_eq_err (fs : FsPath → Bool)
    (h : fs (([] : FsPath) ++ [".git"]) = false) :
    find_git_repository_path fs []
      = .error "Could not find a git repository." := by
  have h0 : fs [".git"] = false := by simpa using h
  rw [find_git_repository_path]
  simp [h0]

theorem find_git_eq_step (fs : FsPath → Bool) (x : String)
    (xs : List String) (h : fs ((x :: xs) ++ [".git"]) = false) :
    find_git_repository_path fs (x :: xs)
      = find_git_repository_path fs (x :: xs).dropLast := by
  have h0 : fs (x :: (xs ++ [".git"])) = false := by simpa using h
  conv_lhs => rw [find_git_repository_path]
  simp [h0]

/-- C8 (amended): the upward walk terminates on every input (it is a
well-founded recursion on the parent chain); it succeeds exactly when
some ancestor of the starting path (the path itself included, the root
last) contains the repository marker, in which case it returns the
marker directory `.git` inside the nearest such ancestor (not the
ancestor itself — see the counterexample); it errors exactly when no
ancestor up to and including the root contains the marker. -/
theorem find_git_spec (fs : FsPath → Bool) (p : FsPath) :
    (∀ q, find_git_repository_path fs p = .ok q ↔
      ∃ a, (ancestors p).find? (fun a => fs (a ++ [".git"])) = some a ∧
        q = a ++ [".git"]) ∧
    ((∃ e, find_git_repository_path fs p = .error e) ↔
      ∀ a ∈ ancestors p, fs (a ++ [".git"]) = false) := by
  by_cases hfs : fs (p ++ [".git"]) = true
  · have hfind := find_git_eq_ok fs p hfs
    have hhead : ∃ rest, ancestors p = p :: rest := by
      cases p with
      | nil => exact ⟨[], ancestors_nil⟩
      | cons x xs => exact ⟨_, ancestors_cons x xs⟩
    obtain ⟨rest, hrest⟩ := hhead
    have hanc : (ancestors p).find? (fun a => fs (a ++ [".git"]))
        = some p := by
      rw [hrest]
      exact List.find?_cons_of_pos rest hfs
    constructor
    · intro q
      constructor
      · intro h
        rw [hfind] at h
        exact ⟨p, hanc, (Except.ok.inj h).symm⟩
      · intro ⟨a, hfa, hq⟩
        rw [hanc] at hfa
        obtain rfl := Option.some.inj hfa
        rw [hfind, hq]
    · constructor
      · intro ⟨e, he⟩
        rw [hfind] at he
        exact absurd he (by simp)
      · intro hall
        have hp := hall p (by rw [hrest]; exact List.mem_cons_self p rest)
        rw [hfs] at hp
        exact Bool.noConfusion hp
  · have hfs' : fs (p ++ [".git"]) = false := by
      simpa using hfs
    cases p with
    | nil =>
      have hfs0 : fs [".git"] = false := by simpa using hfs'
      have hfind := find_git_eq_err fs hfs'
      constructor
      · intro q
        constructor
        · intro h
          rw [hfind] at h
          exact absurd h (by simp)
        · intro ⟨a, hfa, hq⟩
          have hmem := List.mem_of_find?_eq_some hfa
          rw [ancestors_nil] at hmem
          simp only [List.mem_cons, List.not_mem_nil, or_false] at hmem
          subst hmem
          have h2 := List.find?_some hfa
          simp [hfs0] at h2
      · constructor
        · intro _
          intro a ha
          rw [ancestors_nil] at ha
          simp only [List.mem_cons, List.not_mem_nil, or_false] at ha
          subst ha
          exact hfs'
        · intro _
          exact ⟨_, hfind⟩
    | cons x xs =>
      have hfsc : fs (x :: (xs ++ [".git"])) = false := by simpa using hfs'
      have hfind := find_git_eq_step fs x xs hfs'
      have hanc := ancestors_cons x xs
      have IH := find_git_spec fs (x :: xs).dropLast
      constructor
      · intro q
        have hstep : List.find? (fun a => fs (a ++ [".git"]))
            ((x :: xs) :: ancestors (x :: xs).dropLast)
            = List.find? (fun a => fs (a ++ [".git"]))
              (ancestors (x :: xs).dropLast) :=
          List.find?_cons_of_neg _ (by simp [hfsc])
        rw [hfind, hanc, hstep]
        exact IH.1 q
      · constructor
        · intro ⟨e, he⟩
          rw [hfind] at he
          have hrec := IH.2.mp ⟨e, he⟩
          intro a ha
          rw [hanc] at ha
          rcases List.mem_cons.mp ha with rfl | hmem
          · exact hfs'
          · exact hrec a hmem
        · intro hall
          have hall' : ∀ a ∈ ancestors (x :: xs).dropLast,
              fs (a ++ [".git"]) = false := by
            intro a ha
            exact hall a (by rw [hanc]; exact List.mem_cons_of_mem _ ha)
          obtain ⟨e, he⟩ := IH.2.mpr hall'
          exact ⟨e, by rw [hfind]; exact he⟩
termination_by p.length
decreasing_by
  simp [List.length_dropLast]

/-- C8 counterexample: with a marker at the root and the walk started at
the root, the function returns the marker path `[".git"]`, not the
containing ancestor `[]` (the root) that the claim names as the return
value. -/
theorem find_git_counterexample :
    find_git_repository_path gitAtRoot [] = .ok [".git"] ∧
    ([".git"] : FsPath) ≠ ([] : FsPath) :=
  ⟨find_git_eq_ok gitAtRoot [] (by decide), by decide⟩

/-- C8 witness: the amended theorem applied to a filesystem with the
marker at `/a/.git`, walking up from `/a/b`: the walk returns the marker
path, and on a markerless filesystem it errors. -/
theorem find_git_witness :
    find_git_repository_path gitAtA ["a", "b"] = .ok ["a", ".git"] ∧
    ∃ e, find_git_repository_path (fun _ => false) ["a", "b"]
      = .error e := by
  have hancs : ancestors ["a", "b"] = [["a", "b"], ["a"], ([] : FsPath)] := by
    rw [ancestors_cons,
      show (["a", "b"] : FsPath).dropLast = ["a"] from rfl,
      ancestors_cons,
      show (["a"] : FsPath).dropLast = ([] : FsPath) from rfl,
      ancestors_nil]
  constructor
  · exact ((find_git_spec gitAtA ["a", "b"]).1 ["a", ".git"]).mpr
      ⟨["a"], by rw [hancs]; decide, rfl⟩
  · exact (find_git_spec (fun _ => false) ["a", "b"]).2.mpr
      (by intro a ha; rfl)
